import Mathlib

/-!
Shallow embedding of the m4d-coso agent runtime (Go) in Lean 4.

Each definition mirrors one Go function or type of the repository:
* `llm` message IR (sdk/llm/types.go)
* `ContextManager` (sdk/agent/context.go)
* `ToolRegistry.execute` and the tool-use branch of `Agent.runLLMTurn`
  (sdk/agent/registry.go, sdk/agent/agent.go)
* `InMemoryBus` / `PersistentBus` (sdk/agent/bus.go)
* the agent loop's `handleTelegramUpdate` / `handleEvent` / `runUnified`
  poller (sdk/agent/agent.go)
* the session `Recorder` (sdk/session/recorder.go, event.go)
* the reminder producer `fireReminders` (reminder.go, bus variant)
* the `send_user_message` tool's recipient resolution (tools.go)

Go slices are Lean lists, Go `int64`/`int` are `Int`, timestamps are `Nat`,
maps are functions or association lists, SQL tables are lists of row
structures, and random supplies (UUIDs, record ids) are explicit
generator functions passed as arguments.
-/

namespace M4d

/-! ### Message IR (sdk/llm/types.go) -/

structure Usage where
  inputTokens : Int
  outputTokens : Int
deriving Repr, DecidableEq

structure ToolCall where
  id : String
  name : String
  arguments : String
deriving Repr, DecidableEq

structure ToolResult where
  toolCallID : String
  content : String
  isError : Bool
deriving Repr, DecidableEq

structure ContentBlock where
  type : String
  text : String := ""
  toolCall : Option ToolCall := none
  toolResult : Option ToolResult := none
deriving Repr, DecidableEq

structure Message where
  role : String
  content : List ContentBlock
  usage : Option Usage := none
deriving Repr, DecidableEq

/-! ### ContextManager (sdk/agent/context.go)

`Messages` is the stored slice; hooks other than the default transform are
not needed by the claims treated here. `snapshotData` is the value computed
by `ContextManager.Snapshot`: the Go function copies either the whole slice
or the trailing `n` elements into a freshly allocated slice. -/

structure ContextManager where
  messages : List Message
  maxMessages : Int
deriving Repr, DecidableEq

def ContextManager.append (c : ContextManager) (msg : Message) : ContextManager :=
  { c with messages := c.messages ++ [msg] }

/-- The list of messages returned by `Snapshot(n)`: all of them when
`n <= 0 || n >= len(c.Messages)`, otherwise the trailing `n`
(`c.Messages[len-n:]` copied into `out`). -/
def ContextManager.snapshotData (c : ContextManager) (n : Int) : List Message :=
  if n ≤ 0 ∨ n ≥ (c.messages.length : Int) then
    c.messages
  else
    c.messages.drop (c.messages.length - n.toNat)

/-! To state that the snapshot is a *fresh copy* (mutating it does not
alter the stored message list) we model slice buffers in a small heap:
`SliceHeap.bufs` is the store of allocated backing arrays, a
`ContextManager` owns the buffer at index `buf`, and `Snapshot` allocates
a brand-new buffer holding the copied data (Go's `make` + `copy`). -/

structure SliceHeap where
  bufs : List (List Message)
deriving Repr, DecidableEq

structure ManagerRef where
  buf : Nat
  maxMessages : Int
deriving Repr, DecidableEq

def ManagerRef.manager (r : ManagerRef) (h : SliceHeap) : ContextManager :=
  { messages := h.bufs.getD r.buf [], maxMessages := r.maxMessages }

/-- `Snapshot` in the heap model: allocate a new buffer containing the
copied data and return its address together with the grown heap. -/
def snapshotAlloc (h : SliceHeap) (r : ManagerRef) (n : Int) : SliceHeap × Nat :=
  (⟨h.bufs ++ [(r.manager h).snapshotData n]⟩, h.bufs.length)

/-- In-place mutation of the buffer at address `i` (what a caller could do
to the returned slice through its backing array). -/
def mutateBuf (h : SliceHeap) (i : Nat) (f : List Message → List Message) : SliceHeap :=
  ⟨h.bufs.set i (f (h.bufs.getD i []))⟩

/-! ### Tool registry (sdk/agent/registry.go)

A Go tool handler has signature `(ToolContext, json.RawMessage) → (string,
error)`; we embed it as a total function into `Except String String`
(`error e` is a non-nil Go error with text `e`). The registry is the Go
map `name → registeredTool`, embedded as an association list where
`Register` overwrites the binding for an existing name. -/

structure ToolDef where
  name : String
  description : String
  parameters : String
deriving Repr, DecidableEq

structure ToolContext where
  userID : Int
  chatID : Int
  timestamp : Int
deriving Repr, DecidableEq

abbrev ToolHandler := ToolContext → String → Except String String

structure RegisteredTool where
  tdef : ToolDef
  handler : Option ToolHandler

structure ToolRegistry where
  tools : List (String × RegisteredTool)

def ToolRegistry.find (r : ToolRegistry) (name : String) : Option RegisteredTool :=
  (r.tools.find? (fun p => p.1 = name)).map (·.2)

def ToolRegistry.register (r : ToolRegistry) (name description schema : String)
    (handler : Option ToolHandler) : ToolRegistry :=
  ⟨(name, ⟨⟨name, description, schema⟩, handler⟩) :: r.tools.filter (fun p => p.1 ≠ name)⟩

/-- `ToolRegistry.Execute`: look the tool up and run it; every failure is
captured as a `ToolResult` with `isError := true`, never a raised error. -/
def ToolRegistry.execute (r : ToolRegistry) (name args : String) (ctx : ToolContext) : ToolResult :=
  match r.find name with
  | none => ⟨"", "unknown tool: " ++ name, true⟩
  | some t =>
    match t.handler with
    | none => ⟨"", "tool has no handler: " ++ name, true⟩
    | some h =>
      match h ctx args with
      | .error e => ⟨"", e, true⟩
      | .ok out => ⟨"", out, false⟩

/-! ### Turn cycle, tool_use branch (sdk/agent/agent.go, runLLMTurn) -/

def assistantMessage (text : String) : Message :=
  ⟨"assistant", [⟨"text", text, none, none⟩], none⟩

def userTextMessage (text : String) : Message :=
  ⟨"user", [⟨"text", text, none, none⟩], none⟩

def assistantToolUseMessage (toolCalls : List ToolCall) : Message :=
  ⟨"assistant", toolCalls.map (fun tc => ⟨"tool_use", "", some tc, none⟩), none⟩

def toolResultBlock (result : ToolResult) : ContentBlock :=
  ⟨"tool_result", "", none, some result⟩

def toolResultMessage (results : List ContentBlock) : Message :=
  ⟨"user", results, none⟩

/-- One dispatch of the tool_use loop body: run `Registry.Execute`, then
`if result.ToolCallID == "" { result.ToolCallID = toolCall.ID }`. -/
def dispatchToolCall (reg : ToolRegistry) (ctx : ToolContext) (tc : ToolCall) : ToolResult :=
  let result := reg.execute tc.name tc.arguments ctx
  if result.toolCallID = "" then { result with toolCallID := tc.id } else result

/-- The assistant message appended on a tool_use response (with the
response's usage attached). -/
def toolUseAssistantMsg (usage : Usage) (toolCalls : List ToolCall) : Message :=
  { assistantToolUseMessage toolCalls with usage := some usage }

/-- The single user message of batched tool_result blocks appended after
dispatching all calls in response order. -/
def toolUseResultMsg (reg : ToolRegistry) (ctx : ToolContext) (toolCalls : List ToolCall) : Message :=
  toolResultMessage (toolCalls.map (fun tc => toolResultBlock (dispatchToolCall reg ctx tc)))

/-- The `resp.Type == "tool_use"` branch of `runLLMTurn`: append the
assistant tool_call message, dispatch each call in order, append one user
message holding all results. -/
def toolUseStep (reg : ToolRegistry) (ctx : ToolContext) (usage : Usage)
    (toolCalls : List ToolCall) (userCtx : ContextManager) : ContextManager :=
  (userCtx.append (toolUseAssistantMsg usage toolCalls)).append (toolUseResultMsg reg ctx toolCalls)

/-! ### Event model, in-memory bus, persistent bus (sdk/agent/event.go, bus.go)

`AgentEvent` mirrors the Go struct; `EventKind` is a Go string type, kept
as `String`. The in-memory bus is a buffered channel of capacity 256 whose
`Publish` drops the event when the buffer is full. The persistent bus
stores rows of the `agent_events` table; SQL timestamps are `Nat`, the
`now()` of each statement is an explicit argument, and a failing
`pool.Exec` on insert is the `persistOk := false` case. -/

structure AgentEvent where
  kind : String
  targetID : Int
  chatID : Int
  content : String
  source : String
  eventID : String
deriving Repr, DecidableEq

structure InMemoryBus where
  queue : List AgentEvent
deriving Repr, DecidableEq

/-- Non-blocking `Publish`: enqueue, or drop when the 256-slot buffer is full. -/
def InMemoryBus.publish (b : InMemoryBus) (e : AgentEvent) : InMemoryBus :=
  if b.queue.length < 256 then ⟨b.queue ++ [e]⟩ else b

/-- One row of the `agent_events` table. -/
structure EventRow where
  eventID : String
  targetID : Int
  chatID : Int
  kind : String
  content : String
  source : String
  createdAt : Nat
  processedAt : Option Nat
deriving Repr, DecidableEq

structure PersistentBus where
  store : List EventRow
  mem : InMemoryBus
deriving Repr, DecidableEq

def agentEventRow (e : AgentEvent) (now : Nat) : EventRow :=
  ⟨e.eventID, e.targetID, e.chatID, e.kind, e.content, e.source, now, none⟩

/-- `INSERT ... ON CONFLICT (event_id) DO NOTHING`. -/
def insertEventRow (store : List EventRow) (e : AgentEvent) (now : Nat) : List EventRow :=
  if store.any (fun r => r.eventID = e.eventID) then store
  else store ++ [agentEventRow e now]

/-- `PersistentBus.Publish`: attempt the idempotent insert (`persistOk`
is false when `pool.Exec` errors — the error is logged only), then
forward to the in-memory bus unconditionally. -/
def PersistentBus.publish (b : PersistentBus) (e : AgentEvent) (now : Nat)
    (persistOk : Bool) : PersistentBus :=
  { store := if persistOk then insertEventRow b.store e now else b.store
    mem := b.mem.publish e }

/-- `UPDATE agent_events SET processed_at = NOW() WHERE event_id = $1`. -/
def PersistentBus.markProcessed (b : PersistentBus) (eventID : String) (now : Nat) : PersistentBus :=
  { b with store := b.store.map (fun r =>
      if r.eventID = eventID then { r with processedAt := some now } else r) }

/-- `SELECT ... WHERE processed_at IS NULL ORDER BY created_at`. -/
def unprocessedRows (store : List EventRow) : List EventRow :=
  List.insertionSort (fun a b => a.createdAt ≤ b.createdAt)
    (store.filter (fun r => r.processedAt = none))

/-- Reconstruct the `AgentEvent` scanned back from a persisted row. -/
def rowEvent (r : EventRow) : AgentEvent :=
  ⟨r.kind, r.targetID, r.chatID, r.content, r.source, r.eventID⟩

/-- The events `ReplayUnprocessed` republishes, in query order. -/
def replayedEvents (b : PersistentBus) : List AgentEvent :=
  (unprocessedRows b.store).map rowEvent

/-- `PersistentBus.ReplayUnprocessed`: republish every unprocessed row's
event to the in-memory bus; the store itself is not written. -/
def PersistentBus.replayUnprocessed (b : PersistentBus) : PersistentBus :=
  { b with mem := (replayedEvents b).foldl InMemoryBus.publish b.mem }

/-! ### Agent loop (sdk/agent/agent.go)

`Update` is the inbound platform update. The `/start` and authorization
hooks return Go `(string, error)` pairs, embedded as `HookResult`
(`err` = non-nil error, `reply s` = `(s, nil)`).

`handleTelegramUpdateTrace` records the observable actions of
`handleTelegramUpdate` as a trace: `send`s, the LLM turn, and the
`*offsetPtr = update.UpdateID + 1` writes. `hasOffset` is whether
`offsetPtr` is non-nil: `runTelegramOnly` passes `&offset`, `runUnified`
passes `nil`. -/

structure UpdateMsg where
  updateID : Int
  chatID : Int
  userID : Int
  text : String
deriving Repr, DecidableEq

inductive HookResult where
  | err : HookResult
  | reply (s : String) : HookResult
deriving Repr, DecidableEq

structure TgConfig where
  handleStart : Option (Int → Int → String → HookResult)
  authorize : Option (Int → Int → HookResult)

inductive Action where
  | send (chatID : Int) (text : String) : Action
  | runTurn (userID chatID : Int) : Action
  | commitOffset (v : Int) : Action
deriving Repr, DecidableEq

def Action.isCommit : Action → Bool
  | .commitOffset _ => true
  | _ => false

/-- The payload passed to `HandleStart`:
`strings.TrimSpace(strings.TrimPrefix(update.Text, "/start"))` (the branch
is guarded by `strings.HasPrefix(update.Text, "/start")`, so trimming the
prefix is dropping its 6 characters). -/
def startPayload (text : String) : String :=
  (text.drop 6).trim

def handleTelegramUpdateTrace (cfg : TgConfig) (u : UpdateMsg) (hasOffset : Bool) : List Action :=
  let commit : List Action := if hasOffset then [.commitOffset (u.updateID + 1)] else []
  let afterStart : List Action :=
    match cfg.authorize with
    | some auth =>
      match auth u.userID u.chatID with
      | .err => [.send u.chatID "Sorry, something went wrong."] ++ commit
      | .reply m =>
        if m = "" then [.runTurn u.userID u.chatID] ++ commit
        else [.send u.chatID m] ++ commit
    | none => [.runTurn u.userID u.chatID] ++ commit
  if u.text.startsWith "/start" then
    match cfg.handleStart with
    | some hs =>
      match hs u.userID u.chatID (startPayload u.text) with
      | .err => [.send u.chatID "Sorry, something went wrong."] ++ commit
      | .reply r => if r = "" then afterStart else [.send u.chatID r] ++ commit
    | none => afterStart
  else afterStart

/-! The `runUnified` poller goroutine (agent.go lines 165-193): for each
polled update it first sets `offset = u.UpdateID + 1` and then forwards
the update into `telegramUpdateCh`; the dispatcher loop later pops the
update and calls `handleTelegramUpdate(ctx, update, nil)`. -/

structure UnifiedState where
  offset : Int
  pending : List UpdateMsg
  handledTurns : List Int
deriving Repr, DecidableEq

/-- One iteration of the poller's forwarding loop body. -/
def pollerForward (s : UnifiedState) (u : UpdateMsg) : UnifiedState :=
  { s with offset := u.updateID + 1, pending := s.pending ++ [u] }

/-- The dispatcher pops the next forwarded update and runs its turn
(with a nil offset pointer, so no offset write happens here). -/
def dispatchNext (s : UnifiedState) : UnifiedState :=
  match s.pending with
  | [] => s
  | u :: rest => { s with pending := rest, handledTurns := s.handledTurns ++ [u.updateID] }

/-! Self-talk throttle (agent.go handleEvent / handleTelegramUpdate).
`consecutiveEventCount` is the Go map `map[int64]int`, embedded as
`Int → Nat` (absent keys read 0). `cancelled` is whether `ctx.Done()`
fires during the 30 s sleep: in that case `handleEvent` returns without
processing the event. -/

def bumpCount (counts : Int → Nat) (target : Int) : Int → Nat :=
  fun v => if v = target then counts target + 1 else counts v

/-- `a.consecutiveEventCount[update.UserID] = 0` at the top of
`handleTelegramUpdate` — runs on every platform update, before any branch. -/
def resetCountOnUpdate (counts : Int → Nat) (u : UpdateMsg) : Int → Nat :=
  fun v => if v = u.userID then 0 else counts v

structure EventHandling where
  counts : Int → Nat
  sleptSeconds : Nat
  processed : Bool

/-- The counter/throttle prelude of `handleEvent`: increment the target's
count; if it now exceeds 10, sleep 30 s (or return unprocessed when the
context is cancelled during the sleep); then the event's turn runs. -/
def handleEventThrottle (counts : Int → Nat) (e : AgentEvent) (cancelled : Bool) : EventHandling :=
  let counts' := bumpCount counts e.targetID
  if counts' e.targetID > 10 then
    if cancelled then ⟨counts', 0, false⟩
    else ⟨counts', 30, true⟩
  else ⟨counts', 0, true⟩

/-! ### Reminder producer (reminder.go, event-bus variant of fireReminders)

One row of the `reminders` table (the columns the producer touches).
`uuids` is the `generateUUID()` supply, indexed by call order within the
tick; `now` is the tick's `now()`. The model is the success path of the
database statements (the row update error is only logged in Go). -/

structure ReminderRow where
  id : Int
  fireAt : Nat
  chatID : Int
  message : String
  firedAt : Option Nat
deriving Repr, DecidableEq

/-- `SELECT id, chat_id, message FROM reminders WHERE fire_at <= now()
AND fired_at IS NULL ORDER BY fire_at`. -/
def dueReminders (db : List ReminderRow) (now : Nat) : List ReminderRow :=
  List.insertionSort (fun a b => a.fireAt ≤ b.fireAt)
    (db.filter (fun r => r.fireAt ≤ now ∧ r.firedAt = none))

/-- The event published for one due row:
`AgentEvent{Kind: EventReminder, TargetID: r.chatID, ChatID: r.chatID,
Content: r.message, Source: "reminder", EventID: generateUUID()}`. -/
def reminderEvent (r : ReminderRow) (uuid : String) : AgentEvent :=
  ⟨"reminder", r.chatID, r.chatID, r.message, "reminder", uuid⟩

/-- `UPDATE reminders SET fired_at = now() WHERE id = $1`. -/
def setFiredAt (db : List ReminderRow) (id : Int) (now : Nat) : List ReminderRow :=
  db.map (fun r => if r.id = id then { r with firedAt := some now } else r)

/-- The events published during one `fireReminders` tick, in order. -/
def firedEvents (db : List ReminderRow) (now : Nat) (uuids : Nat → String) : List AgentEvent :=
  (dueReminders db now).enum.map (fun p => reminderEvent p.2 (uuids p.1))

/-- The `reminders` table after one `fireReminders` tick: each due row's
`fired_at` update is applied in turn, right after its publish. -/
def fireRemindersDB (db : List ReminderRow) (now : Nat) : List ReminderRow :=
  (dueReminders db now).foldl (fun acc r => setFiredAt acc r.id now) db

/-! ### Session recorder (sdk/session/recorder.go, event.go)

A `RecEvent` is one JSONL record; the JSONL file is the list of records
already written. Fresh 4-byte-hex ids come from an explicit supply.
Unused JSON fields keep their Go zero values. -/

structure RecEvent where
  type : String
  version : Int
  id : String
  parentID : String
  userID : Int
  message : Option Message
  timestamp : Nat
deriving Repr, DecidableEq

def sessionInitEvent (userID : Int) (id : String) (now : Nat) : RecEvent :=
  ⟨"session", 1, id, "", userID, none, now⟩

def messageEvent (msg : Message) (parentID : String) (id : String) (now : Nat) : RecEvent :=
  ⟨"message", 0, id, parentID, 0, some msg, now⟩

structure Recorder where
  userID : Int
  file : List RecEvent
  lastID : String
deriving Repr, DecidableEq

/-- `newRecorder`: open the per-user file append-only; write the session
init record only when the file is new (size 0), in which case `lastID`
becomes the init record's id — otherwise `lastID` keeps its zero value `""`. -/
def newRecorder (userID : Int) (file : List RecEvent) (freshID : String) (now : Nat) : Recorder :=
  if file.length = 0 then
    let init := sessionInitEvent userID freshID now
    ⟨userID, file ++ [init], init.id⟩
  else
    ⟨userID, file, ""⟩

/-- `Recorder.Record` (successful write): append a message record whose
`parentId` is the current `lastID`, then advance `lastID`. -/
def Recorder.record (r : Recorder) (msg : Message) (freshID : String) (now : Nat) : Recorder :=
  let e := messageEvent msg r.lastID freshID now
  ⟨r.userID, r.file ++ [e], e.id⟩

/-- Adjacent-link check: every record's `parentId` equals the id of the
record preceding it in the file (the linear chain of the spec). -/
def chainOK : List RecEvent → Bool
  | [] => true
  | [_] => true
  | a :: b :: rest => (b.parentID = a.id) && chainOK (b :: rest)

/-- One recorder lifetime over a newly created (empty) file: `newRecorder`
followed by a `Record` per message, ids drawn in order from the supply. -/
def runSession (userID : Int) (msgs : List Message) (ids : Nat → String) (now : Nat) : Recorder :=
  msgs.enum.foldl (fun r p => r.record p.2 (ids (p.1 + 1)) now)
    (newRecorder userID [] (ids 0) now)

/-! ### send_user_message recipient resolution (tools.go)

One row of the `users` table as the tool reads it
(`COALESCE(name, '')`, so `name` is never null). -/

structure UserRow where
  telegramID : Int
  name : String
  role : String
deriving Repr, DecidableEq

/-- The SQL recipient query: `to` trimmed and lowered selects all users,
a role, or — in the default branch — the rows whose
`lower(name) = lower($1)` with the raw `in.To` as `$1`. -/
def resolveRecipientQuery (users : List UserRow) (toRaw : String) : List UserRow :=
  let dest := toRaw.trim.toLower
  if dest = "all" then users
  else if dest = "manager" ∨ dest = "cleaner" then users.filter (fun u => u.role = dest)
  else users.filter (fun u => u.name.toLower = toRaw.toLower)

/-- The scan loop keeps a queried row only when
`r.telegramID != ctx.UserID` ("Don't send to self"). -/
def resolveRecipients (users : List UserRow) (toRaw : String) (senderID : Int) : List UserRow :=
  (resolveRecipientQuery users toRaw).filter (fun u => u.telegramID ≠ senderID)

/-- Chats the tool sends the message to: in Telegram the DM chat_id equals
the recipient's telegram_id. -/
def sendTargets (users : List UserRow) (toRaw : String) (senderID : Int) : List Int :=
  (resolveRecipients users toRaw senderID).map (·.telegramID)

/-- Users whose conversation context receives the injected copy: exactly
the recipients whose Telegram send succeeded. -/
def injectTargets (users : List UserRow) (toRaw : String) (senderID : Int)
    (sendOk : Int → Bool) : List Int :=
  ((resolveRecipients users toRaw senderID).filter (fun u => sendOk u.telegramID)).map (·.telegramID)

/-! ### Concrete instances used to evaluate the model -/

instance : IsTotal EventRow (fun a b => a.createdAt ≤ b.createdAt) :=
  ⟨fun a b => Nat.le_total a.createdAt b.createdAt⟩

instance : IsTrans EventRow (fun a b => a.createdAt ≤ b.createdAt) :=
  ⟨fun _ _ _ h1 h2 => Nat.le_trans h1 h2⟩

instance : IsTotal ReminderRow (fun a b => a.fireAt ≤ b.fireAt) :=
  ⟨fun a b => Nat.le_total a.fireAt b.fireAt⟩

instance : IsTrans ReminderRow (fun a b => a.fireAt ≤ b.fireAt) :=
  ⟨fun _ _ _ h1 h2 => Nat.le_trans h1 h2⟩

/-- A persisted bus holding one unprocessed event row. -/
def pbEx : PersistentBus := ⟨[⟨"e", 1, 1, "relay", "hi", "x", 0, none⟩], ⟨[]⟩⟩

/-- A persisted bus holding two unprocessed event rows. -/
def pbReplayEx : PersistentBus :=
  ⟨[⟨"e", 1, 1, "relay", "a", "s", 0, none⟩, ⟨"f", 2, 2, "relay", "b", "s", 1, none⟩], ⟨[]⟩⟩

/-- An empty persisted bus. -/
def pbEmptyEx : PersistentBus := ⟨[], ⟨[]⟩⟩

/-- A concrete inbound platform update. -/
def updEx : UpdateMsg := ⟨5, 10, 20, "hello"⟩

/-- A concrete bus event. -/
def evEx : AgentEvent := ⟨"relay", 1, 1, "hi", "s", "e1"⟩

/-- A deterministic, injective id/uuid supply for evaluating the model. -/
def idsEx : Nat → String := fun n => String.mk (List.replicate n 'u')

/-- A session file produced by one recorder lifetime over a fresh file:
init record, then one message record. -/
def recRun1 : Recorder := (newRecorder 7 [] "aa" 0).record (userTextMessage "hi") "bb" 1

/-- The same file after a process restart: a second recorder opens the
(non-empty) file and appends another message record. -/
def recRun2 : Recorder := (newRecorder 7 recRun1.file "cc" 2).record (userTextMessage "again") "dd" 3

/-- A concrete reminders table: one due row, one not yet due. -/
def remDbEx : List ReminderRow := [⟨1, 5, 100, "clean room 3", none⟩, ⟨2, 20, 200, "later", none⟩]

end M4d

namespace M4d

/-! ## Theorems -/

theorem idsEx_injective : Function.Injective idsEx := by
  intro a b h
  have hdata : List.replicate a 'u' = List.replicate b 'u' := by
    simpa [idsEx] using congrArg String.data h
  simpa using congrArg List.length hdata

/-- C9: the recipient set resolved by `send_user_message` — whether the
destination is a name, a role, or "all" — never contains the invoking
user, so the message is never sent to the sender's own chat and never
injected into the sender's own conversation context by this tool. -/
theorem C9_send_user_message_never_self (users : List UserRow) (toRaw : String)
    (senderID : Int) (sendOk : Int → Bool) :
    (∀ u ∈ resolveRecipients users toRaw senderID, u.telegramID ≠ senderID)
    ∧ senderID ∉ sendTargets users toRaw senderID
    ∧ senderID ∉ injectTargets users toRaw senderID sendOk := by
  have hrec : ∀ u ∈ resolveRecipients users toRaw senderID, u.telegramID ≠ senderID := by
    intro u hu
    have := (List.mem_filter.mp hu).2
    simpa using this
  refine ⟨hrec, ?_, ?_⟩
  · intro hmem
    obtain ⟨u, hu, hid⟩ := List.mem_map.mp hmem
    exact hrec u hu hid
  · intro hmem
    obtain ⟨u, hu, hid⟩ := List.mem_map.mp hmem
    exact hrec u (List.mem_of_mem_filter hu) hid

theorem C9_witness :
    (5 : Int) ∉ sendTargets [⟨5, "mario", "manager"⟩, ⟨6, "luigi", "cleaner"⟩] "all" 5 :=
  (C9_send_user_message_never_self [⟨5, "mario", "manager"⟩, ⟨6, "luigi", "cleaner"⟩]
    "all" 5 (fun _ => true)).2.1

/-- C10: `Snapshot(n)` returns a fresh copy — mutating the returned
buffer leaves the stored message list unchanged — holding the entire
message list when `n ≤ 0` or `n` is at least the number of stored
messages, and exactly the last `n` messages otherwise. -/
theorem C10_snapshot_fresh_copy_lastN (h : SliceHeap) (r : ManagerRef) (n : Int)
    (f : List Message → List Message) (hbuf : r.buf < h.bufs.length) :
    ManagerRef.manager r (mutateBuf (snapshotAlloc h r n).1 (snapshotAlloc h r n).2 f)
        = ManagerRef.manager r h
    ∧ ((n ≤ 0 ∨ n ≥ ((ManagerRef.manager r h).messages.length : Int)) →
        (ManagerRef.manager r h).snapshotData n = (ManagerRef.manager r h).messages)
    ∧ (0 < n → n < ((ManagerRef.manager r h).messages.length : Int) →
        (ManagerRef.manager r h).snapshotData n
            = ((ManagerRef.manager r h).messages.reverse.take n.toNat).reverse
        ∧ ((ManagerRef.manager r h).snapshotData n).length = n.toNat) := by
  refine ⟨?_, ?_, ?_⟩
  · unfold ManagerRef.manager mutateBuf snapshotAlloc
    simp only
    congr 1
    rw [List.getD_eq_getElem?_getD, List.getD_eq_getElem?_getD,
      List.getElem?_set_ne (by omega), List.getElem?_append]
    simp [hbuf]
  · intro hcond
    unfold ContextManager.snapshotData
    rw [if_pos hcond]
  · intro h1 h2
    have hcond : ¬(n ≤ 0 ∨ n ≥ ((ManagerRef.manager r h).messages.length : Int)) := by
      push_neg
      exact ⟨h1, h2⟩
    have htn : n.toNat ≤ (ManagerRef.manager r h).messages.length := by omega
    constructor
    · unfold ContextManager.snapshotData
      rw [if_neg hcond, List.take_reverse, List.reverse_reverse]
    · unfold ContextManager.snapshotData
      rw [if_neg hcond, List.length_drop]
      omega

theorem C10_witness :
    (0 : Nat) < (⟨[[userTextMessage "a", userTextMessage "b", userTextMessage "c"]]⟩ :
        SliceHeap).bufs.length
    ∧ (ManagerRef.manager ⟨0, 40⟩
          (⟨[[userTextMessage "a", userTextMessage "b", userTextMessage "c"]]⟩ :
            SliceHeap)).snapshotData 2
        = [userTextMessage "b", userTextMessage "c"] := by
  refine ⟨by decide, ?_⟩
  have hc := (C10_snapshot_fresh_copy_lastN
    ⟨[[userTextMessage "a", userTextMessage "b", userTextMessage "c"]]⟩ ⟨0, 40⟩ 2
    id (by decide)).2.2 (by decide) (by decide)
  rw [hc.1]
  rfl

/-- Every `ToolResult` built by `ToolRegistry.Execute` has an empty
`ToolCallID` (the registry never sets it; the dispatch loop fills it in). -/
theorem execute_toolCallID_empty (r : ToolRegistry) (name args : String) (ctx : ToolContext) :
    (r.execute name args ctx).toolCallID = "" := by
  unfold ToolRegistry.execute
  repeat' split
  all_goals rfl

theorem dispatchToolCall_id (reg : ToolRegistry) (ctx : ToolContext) (tc : ToolCall) :
    (dispatchToolCall reg ctx tc).toolCallID = tc.id := by
  unfold dispatchToolCall
  simp [execute_toolCallID_empty]

/-- C3: on a tool_use model response the agent appends an assistant
message of the tool_call blocks, dispatches the calls in response order
through the registry (each yielding a `ToolResult` value), and appends
exactly one user message whose i-th tool_result block has `tool_call_id`
equal to the id of the i-th tool_call. -/
theorem C3_toolUse_result_ids_align (reg : ToolRegistry) (ctx : ToolContext)
    (usage : Usage) (calls : List ToolCall) (c : ContextManager) :
    (toolUseStep reg ctx usage calls c).messages
        = c.messages ++ [toolUseAssistantMsg usage calls, toolUseResultMsg reg ctx calls]
    ∧ (toolUseAssistantMsg usage calls).role = "assistant"
    ∧ (toolUseResultMsg reg ctx calls).role = "user"
    ∧ (toolUseAssistantMsg usage calls).content.length = calls.length
    ∧ (toolUseResultMsg reg ctx calls).content.length = calls.length
    ∧ ∀ i : Fin calls.length,
        (toolUseAssistantMsg usage calls).content[(i : Nat)]?
            = some ⟨"tool_use", "", some (calls.get i), none⟩
        ∧ (toolUseResultMsg reg ctx calls).content[(i : Nat)]?
            = some (toolResultBlock (dispatchToolCall reg ctx (calls.get i)))
        ∧ (dispatchToolCall reg ctx (calls.get i)).toolCallID = (calls.get i).id := by
  refine ⟨?_, rfl, rfl, ?_, ?_, ?_⟩
  · simp [toolUseStep, ContextManager.append]
  · simp [toolUseAssistantMsg, assistantToolUseMessage]
  · simp [toolUseResultMsg, toolResultMessage]
  · intro i
    refine ⟨?_, ?_, dispatchToolCall_id reg ctx (calls.get i)⟩
    · have : calls[(i : Nat)]? = some (calls.get i) := by
        simp [List.getElem?_eq_getElem i.isLt]
      simp [toolUseAssistantMsg, assistantToolUseMessage, List.getElem?_map, this]
    · have : calls[(i : Nat)]? = some (calls.get i) := by
        simp [List.getElem?_eq_getElem i.isLt]
      simp [toolUseResultMsg, toolResultMessage, List.getElem?_map, this]

theorem C3_witness :
    (toolUseResultMsg ⟨[]⟩ ⟨20, 10, 0⟩ [⟨"c1", "echo", "x"⟩]).content[(0 : Nat)]?
        = some (toolResultBlock ⟨"c1", "unknown tool: echo", true⟩) := by
  have hc := (C3_toolUse_result_ids_align ⟨[]⟩ ⟨20, 10, 0⟩ ⟨3, 2⟩ [⟨"c1", "echo", "x"⟩]
    ⟨[], 40⟩).2.2.2.2.2 ⟨0, by decide⟩
  rw [hc.2.1]
  rfl

/-- C2 counterexample: a second `MarkProcessed` at a later `NOW()` does
not leave the persisted event's state identical — the `UPDATE` stamps
`processed_at` again, overwriting the first timestamp. -/
theorem C2_counterexample :
    (pbEx.markProcessed "e" 1).markProcessed "e" 2 ≠ pbEx.markProcessed "e" 1 := by
  decide

/-- C2 (amended): re-running `MarkProcessed` with the same `NOW()` value
is idempotent; in general the second call overwrites `processed_at` with
its own timestamp rather than leaving it set exactly once. -/
theorem C2_markProcessed_idempotent_same_instant (b : PersistentBus) (id : String) (t : Nat) :
    (b.markProcessed id t).markProcessed id t = b.markProcessed id t := by
  cases b with
  | mk store mem =>
    simp only [PersistentBus.markProcessed, List.map_map]
    congr 1
    apply List.map_congr_left
    intro r _
    by_cases hr : r.eventID = id <;> simp [Function.comp, hr]

/-- C5: `PersistentBus.Publish` inserts the persisted row with
on-conflict-on-event_id-do-nothing semantics and then forwards the event
to the in-memory bus; a persistence error does not prevent the
forwarding, and publishing the same event_id twice leaves a single
persisted row. -/
theorem C5_publish_forward_and_dedup (b : PersistentBus) (e : AgentEvent)
    (n1 n2 : Nat) (persistOk : Bool)
    (hroom : b.mem.queue.length < 256)
    (hfresh : ∀ r ∈ b.store, r.eventID ≠ e.eventID) :
    (b.publish e n1 persistOk).mem.queue = b.mem.queue ++ [e]
    ∧ ((b.publish e n1 true).publish e n2 true).store = (b.publish e n1 true).store
    ∧ (((b.publish e n1 true).publish e n2 true).store.filter
          (fun r => r.eventID = e.eventID)).length = 1 := by
  have hany : b.store.any (fun r => r.eventID = e.eventID) = false := by
    rw [List.any_eq_false]
    intro r hr
    simp [hfresh r hr]
  have hany2 : (b.store ++ [agentEventRow e n1]).any (fun r => r.eventID = e.eventID) = true := by
    simp [agentEventRow]
  have hins1 : insertEventRow b.store e n1 = b.store ++ [agentEventRow e n1] := by
    unfold insertEventRow
    simp only [hany]
    simp
  have hins2 : insertEventRow (b.store ++ [agentEventRow e n1]) e n2
      = b.store ++ [agentEventRow e n1] := by
    unfold insertEventRow
    simp only [hany2]
    simp
  have hstore1 : (b.publish e n1 true).store = b.store ++ [agentEventRow e n1] := by
    simp [PersistentBus.publish, hins1]
  have hstore2 : ((b.publish e n1 true).publish e n2 true).store
      = b.store ++ [agentEventRow e n1] := by
    show insertEventRow (b.publish e n1 true).store e n2 = _
    rw [hstore1, hins2]
  refine ⟨?_, ?_, ?_⟩
  · simp [PersistentBus.publish, InMemoryBus.publish, hroom]
  · rw [hstore2, hstore1]
  · have hfe : b.store.filter (fun r => r.eventID = e.eventID) = [] := by
      rw [List.filter_eq_nil_iff]
      intro r hr
      simp [hfresh r hr]
    rw [hstore2, List.filter_append, hfe]
    simp [agentEventRow]

theorem C5_witness :
    (pbEmptyEx.publish evEx 1 false).mem.queue = [evEx]
    ∧ (((pbEmptyEx.publish evEx 1 true).publish evEx 2 true).store.filter
          (fun r => r.eventID = evEx.eventID)).length = 1 := by
  have hc := C5_publish_forward_and_dedup pbEmptyEx evEx 1 2 false (by decide) (by decide)
  exact ⟨by simpa [pbEmptyEx] using hc.1, hc.2.2⟩

/-- C4: `ReplayUnprocessed` republishes onto the in-memory bus exactly
those persisted events whose processed_at is null, in created_at order,
without re-persisting them; once `MarkProcessed(id)` has been applied, no
subsequent replay re-delivers that event. -/
theorem C4_replay_only_unprocessed (b : PersistentBus) (id : String) (t : Nat)
    (ev : AgentEvent) :
    (b.replayUnprocessed).store = b.store
    ∧ (ev ∈ replayedEvents b ↔ ∃ r ∈ b.store, r.processedAt = none ∧ rowEvent r = ev)
    ∧ (ev ∈ replayedEvents (b.markProcessed id t) → ev.eventID ≠ id)
    ∧ List.Pairwise (fun a c : EventRow => a.createdAt ≤ c.createdAt)
        (unprocessedRows b.store) := by
  have hmem : ∀ (s : PersistentBus) (x : AgentEvent), x ∈ replayedEvents s ↔
      ∃ r ∈ s.store, r.processedAt = none ∧ rowEvent r = x := by
    intro s x
    simp [replayedEvents, unprocessedRows, List.mem_map, List.mem_insertionSort,
      List.mem_filter, and_assoc]
  refine ⟨rfl, hmem b ev, ?_, ?_⟩
  · intro hr
    obtain ⟨r, hrs, hrp, hre⟩ := (hmem _ ev).mp hr
    obtain ⟨r0, hr0, hfr⟩ := List.mem_map.mp hrs
    by_cases h0 : r0.eventID = id
    · exfalso
      rw [← hfr] at hrp
      simp [h0] at hrp
    · have : r = r0 := by rw [← hfr]; simp [h0]
      subst this
      rw [← hre]
      simpa [rowEvent] using h0
  · exact List.sorted_insertionSort (fun a c : EventRow => a.createdAt ≤ c.createdAt) _

theorem C4_witness :
    rowEvent ⟨"f", 2, 2, "relay", "b", "s", 1, none⟩
        ∈ replayedEvents (pbReplayEx.markProcessed "e" 5)
    ∧ (rowEvent ⟨"f", 2, 2, "relay", "b", "s", 1, none⟩).eventID ≠ "e" := by
  refine ⟨by decide, ?_⟩
  exact (C4_replay_only_unprocessed pbReplayEx "e" 5
    (rowEvent ⟨"f", 2, 2, "relay", "b", "s", 1, none⟩)).2.2.1 (by decide)

/-- C6: a bus event increments the target user's consecutive event count
(other users unchanged); when the incremented count exceeds 10 (and the
context is not cancelled) the dispatcher sleeps 30 seconds before
handling it, otherwise it does not sleep; the event is still processed
afterwards; every platform update resets the sending user's count to
zero. -/
theorem C6_throttle_spec (counts : Int → Nat) (e : AgentEvent) (u : UpdateMsg) (v : Int) :
    (handleEventThrottle counts e false).counts e.targetID = counts e.targetID + 1
    ∧ (v ≠ e.targetID → (handleEventThrottle counts e false).counts v = counts v)
    ∧ (counts e.targetID + 1 > 10 → (handleEventThrottle counts e false).sleptSeconds = 30)
    ∧ (counts e.targetID + 1 ≤ 10 → (handleEventThrottle counts e false).sleptSeconds = 0)
    ∧ (handleEventThrottle counts e false).processed = true
    ∧ resetCountOnUpdate counts u u.userID = 0 := by
  have hb : bumpCount counts e.targetID e.targetID = counts e.targetID + 1 := by
    simp [bumpCount]
  have key : handleEventThrottle counts e false
      = if counts e.targetID + 1 > 10
        then ⟨bumpCount counts e.targetID, 30, true⟩
        else ⟨bumpCount counts e.targetID, 0, true⟩ := by
    simp [handleEventThrottle, hb]
  refine ⟨?_, ?_, ?_, ?_, ?_, by simp [resetCountOnUpdate]⟩
  · rw [key]
    split <;> simp [hb]
  · intro hv
    rw [key]
    split <;> simp [bumpCount, hv]
  · intro hgt
    rw [key, if_pos hgt]
  · intro hle
    rw [key, if_neg (by omega)]
  · rw [key]
    split <;> rfl

theorem C6_witness :
    (handleEventThrottle (fun _ => 10) evEx false).counts evEx.targetID = 11
    ∧ (handleEventThrottle (fun _ => 10) evEx false).sleptSeconds = 30
    ∧ (handleEventThrottle (fun _ => 10) evEx false).processed = true
    ∧ resetCountOnUpdate (fun _ => 10) updEx updEx.userID = 0 := by
  have hc := C6_throttle_spec (fun _ => 10) evEx updEx 0
  exact ⟨hc.1, hc.2.2.1 (by omega), hc.2.2.2.2.1, hc.2.2.2.2.2⟩

/-- Every branch of `handleTelegramUpdate` commits the offset exactly when
`offsetPtr` is non-nil, and commits it to `update.UpdateID + 1`. -/
theorem handleTelegramUpdateTrace_filter (cfg : TgConfig) (u : UpdateMsg) (hasOffset : Bool) :
    (handleTelegramUpdateTrace cfg u hasOffset).filter Action.isCommit
      = if hasOffset then [Action.commitOffset (u.updateID + 1)] else [] := by
  cases hasOffset <;>
    (unfold handleTelegramUpdateTrace
     repeat' split
     all_goals simp_all [Action.isCommit])

/-- With a non-nil `offsetPtr`, the offset commit is the last action of
every branch of `handleTelegramUpdate`. -/
theorem handleTelegramUpdateTrace_getLast (cfg : TgConfig) (u : UpdateMsg) :
    (handleTelegramUpdateTrace cfg u true).getLast?
      = some (Action.commitOffset (u.updateID + 1)) := by
  unfold handleTelegramUpdateTrace
  repeat' split
  all_goals simp_all

/-- C1 counterexample: in `runUnified` the poller goroutine sets
`offset = u.UpdateID + 1` when it forwards the update to the dispatch
channel — here the offset is already committed past update 5 while that
update is still pending and no turn has run. -/
theorem C1_counterexample :
    (pollerForward ⟨0, [], []⟩ updEx).offset = updEx.updateID + 1
    ∧ updEx ∈ (pollerForward ⟨0, [], []⟩ updEx).pending
    ∧ (pollerForward ⟨0, [], []⟩ updEx).handledTurns = []
    ∧ ¬(pollerForward ⟨0, [], []⟩ updEx).offset ≤ updEx.updateID := by
  decide

/-- C1 (amended): in the Telegram-only loop (`offsetPtr` non-nil) the
offset is committed to `update.UpdateID + 1` exactly once, as the last
action of `handleTelegramUpdate`, after the turn / reply of every branch;
in the unified loop the handler performs no commit (`offsetPtr` is nil)
and the poller advances the offset at forward time instead. -/
theorem C1_offset_commit (cfg : TgConfig) (u : UpdateMsg) (s : UnifiedState) :
    (handleTelegramUpdateTrace cfg u true).getLast?
        = some (Action.commitOffset (u.updateID + 1))
    ∧ (handleTelegramUpdateTrace cfg u true).filter Action.isCommit
        = [Action.commitOffset (u.updateID + 1)]
    ∧ (handleTelegramUpdateTrace cfg u false).filter Action.isCommit = []
    ∧ (pollerForward s u).offset = u.updateID + 1
    ∧ u ∈ (pollerForward s u).pending := by
  refine ⟨handleTelegramUpdateTrace_getLast cfg u, ?_, ?_, rfl, by simp [pollerForward]⟩
  · simpa using handleTelegramUpdateTrace_filter cfg u true
  · simpa using handleTelegramUpdateTrace_filter cfg u false

theorem C1_witness :
    (handleTelegramUpdateTrace ⟨none, none⟩ updEx true).getLast?
        = some (Action.commitOffset 6) := by
  have hc := (C1_offset_commit ⟨none, none⟩ updEx ⟨0, [], []⟩).1
  simpa [updEx] using hc

/-- Folding the per-row `fired_at` updates over a batch of rows updates
exactly the rows whose id occurs in the batch. -/
theorem setFiredAt_foldl (rs acc : List ReminderRow) (now : Nat) :
    rs.foldl (fun acc r => setFiredAt acc r.id now) acc
      = acc.map (fun r => if r.id ∈ rs.map (·.id) then { r with firedAt := some now } else r) := by
  induction rs generalizing acc with
  | nil => simp
  | cons x xs ih =>
    rw [List.foldl_cons, ih]
    unfold setFiredAt
    rw [List.map_map]
    apply List.map_congr_left
    intro r _
    by_cases hx : r.id = x.id
    · by_cases hm : r.id ∈ xs.map (·.id) <;> simp [Function.comp, hx, hm]
    · simp [Function.comp, hx]

theorem dueReminders_mem (db : List ReminderRow) (now : Nat) (r : ReminderRow) :
    r ∈ dueReminders db now ↔ r ∈ db ∧ r.fireAt ≤ now ∧ r.firedAt = none := by
  simp [dueReminders, List.mem_insertionSort, List.mem_filter, and_assoc]

theorem fireRemindersDB_eq (db : List ReminderRow) (now : Nat)
    (hids : (db.map (·.id)).Nodup) :
    fireRemindersDB db now
      = db.map (fun r => if r.fireAt ≤ now ∧ r.firedAt = none
          then { r with firedAt := some now } else r) := by
  unfold fireRemindersDB
  rw [setFiredAt_foldl]
  apply List.map_congr_left
  intro r hr
  by_cases hdue : r.fireAt ≤ now ∧ r.firedAt = none
  · have hm : r.id ∈ (dueReminders db now).map (·.id) :=
      List.mem_map.mpr ⟨r, (dueReminders_mem db now r).mpr ⟨hr, hdue.1, hdue.2⟩, rfl⟩
    simp [hm, hdue]
  · have hm : r.id ∉ (dueReminders db now).map (·.id) := by
      intro hmem
      obtain ⟨r2, hr2, hid⟩ := List.mem_map.mp hmem
      obtain ⟨hr2db, h1, h2⟩ := (dueReminders_mem db now r2).mp hr2
      have : r2 = r := List.inj_on_of_nodup_map hids hr2db hr hid
      subst this
      exact hdue ⟨h1, h2⟩
    simp [hm, hdue]

/-- C7: on each tick the reminder producer selects exactly the rows with
`fire_at ≤ now` and null `fired_at`, in `fire_at` order, publishes one
event per row with kind "reminder", target and chat the row's chat_id,
content the row's message, source "reminder" and a fresh event_id, and
then stamps each selected row's `fired_at` to now. -/
theorem C7_fireReminders_spec (db : List ReminderRow) (now : Nat) (uuids : Nat → String) :
    (∀ r : ReminderRow, r ∈ dueReminders db now ↔ r ∈ db ∧ r.fireAt ≤ now ∧ r.firedAt = none)
    ∧ List.Pairwise (fun a c : ReminderRow => a.fireAt ≤ c.fireAt) (dueReminders db now)
    ∧ (firedEvents db now uuids).length = (dueReminders db now).length
    ∧ (∀ i : Fin (dueReminders db now).length,
        (firedEvents db now uuids)[(i : Nat)]?
            = some (reminderEvent ((dueReminders db now).get i) (uuids i))
        ∧ (reminderEvent ((dueReminders db now).get i) (uuids i)).kind = "reminder"
        ∧ (reminderEvent ((dueReminders db now).get i) (uuids i)).targetID
            = ((dueReminders db now).get i).chatID
        ∧ (reminderEvent ((dueReminders db now).get i) (uuids i)).chatID
            = ((dueReminders db now).get i).chatID
        ∧ (reminderEvent ((dueReminders db now).get i) (uuids i)).content
            = ((dueReminders db now).get i).message
        ∧ (reminderEvent ((dueReminders db now).get i) (uuids i)).source = "reminder"
        ∧ (reminderEvent ((dueReminders db now).get i) (uuids i)).eventID = uuids i)
    ∧ (Function.Injective uuids → ((firedEvents db now uuids).map (·.eventID)).Nodup)
    ∧ ((db.map (·.id)).Nodup → fireRemindersDB db now
          = db.map (fun r => if r.fireAt ≤ now ∧ r.firedAt = none
              then { r with firedAt := some now } else r)) := by
  refine ⟨dueReminders_mem db now, ?_, ?_, ?_, ?_, fireRemindersDB_eq db now⟩
  · exact List.sorted_insertionSort (fun a c : ReminderRow => a.fireAt ≤ c.fireAt) _
  · simp [firedEvents, List.enum_length]
  · intro i
    have hi : (i : Nat) < (dueReminders db now).enum.length := by
      rw [List.enum_length]
      exact i.isLt
    have henum : (dueReminders db now).enum[(i : Nat)]?
        = some ((i : Nat), (dueReminders db now).get i) := by
      rw [List.getElem?_eq_getElem hi, List.getElem_enum]
      rfl
    refine ⟨?_, rfl, rfl, rfl, rfl, rfl, rfl⟩
    simp [firedEvents, List.getElem?_map, henum]
  · intro hinj
    have hmap : (firedEvents db now uuids).map (·.eventID)
        = List.map uuids (List.range (dueReminders db now).length) := by
      unfold firedEvents
      rw [List.map_map, ← List.enum_map_fst (dueReminders db now), List.map_map]
      exact List.map_congr_left (fun p _ => rfl)
    rw [hmap]
    exact List.Nodup.map hinj (List.nodup_range _)

theorem C7_witness :
    firedEvents remDbEx 10 idsEx = [⟨"reminder", 100, 100, "clean room 3", "reminder", ""⟩]
    ∧ fireRemindersDB remDbEx 10
        = [⟨1, 5, 100, "clean room 3", some 10⟩, ⟨2, 20, 200, "later", none⟩] := by
  have hc := (C7_fireReminders_spec remDbEx 10 idsEx).2.2.2.2.2 (by decide)
  refine ⟨by decide, ?_⟩
  rw [hc]
  decide

/-- Appending a record whose `parentId` equals the last record's id
preserves the adjacent-link chain. -/
theorem chainOK_concat (l : List RecEvent) (b : RecEvent)
    (h : chainOK l = true) (hl : l.getLast?.map (·.id) = some b.parentID) :
    chainOK (l ++ [b]) = true := by
  induction l with
  | nil => simp at hl
  | cons x xs ih =>
    cases xs with
    | nil =>
      simp [List.getLast?] at hl
      simp [chainOK, hl]
    | cons y ys =>
      have hchain : y.parentID = x.id ∧ chainOK (y :: ys) = true := by
        simpa [chainOK, Bool.and_eq_true] using h
      have hl2 : (y :: ys).getLast?.map (·.id) = some b.parentID := by
        rw [List.getLast?_cons_cons] at hl
        exact hl
      have hrec := ih hchain.2 hl2
      show chainOK (x :: ((y :: ys) ++ [b])) = true
      simp only [List.cons_append, chainOK, Bool.and_eq_true, decide_eq_true_eq]
      exact ⟨hchain.1, by simpa using hrec⟩

/-- Invariant of the record-appending fold: the chain stays intact, the
last record's id is the recorder's `lastID`, and the file head is
unchanged. -/
theorem record_foldl_inv (ps : List (Nat × Message)) (r : Recorder) (ids : Nat → String)
    (now : Nat) (hchain : chainOK r.file = true)
    (hlast : r.file.getLast?.map (·.id) = some r.lastID) :
    chainOK (ps.foldl (fun acc p => acc.record p.2 (ids (p.1 + 1)) now) r).file = true
    ∧ (ps.foldl (fun acc p => acc.record p.2 (ids (p.1 + 1)) now) r).file.getLast?.map (·.id)
        = some (ps.foldl (fun acc p => acc.record p.2 (ids (p.1 + 1)) now) r).lastID
    ∧ (ps.foldl (fun acc p => acc.record p.2 (ids (p.1 + 1)) now) r).file.head?
        = r.file.head? := by
  induction ps generalizing r with
  | nil => exact ⟨hchain, hlast, rfl⟩
  | cons p ps ih =>
    rw [List.foldl_cons]
    have hstep1 : chainOK (r.record p.2 (ids (p.1 + 1)) now).file = true := by
      apply chainOK_concat _ _ hchain
      simpa [messageEvent] using hlast
    have hstep2 : (r.record p.2 (ids (p.1 + 1)) now).file.getLast?.map (·.id)
        = some (r.record p.2 (ids (p.1 + 1)) now).lastID := by
      simp [Recorder.record, List.getLast?_concat, messageEvent]
    have hstep3 : (r.record p.2 (ids (p.1 + 1)) now).file.head? = r.file.head? := by
      cases hf : r.file with
      | nil => rw [hf] at hlast; simp at hlast
      | cons a as => simp [Recorder.record, hf]
    obtain ⟨h1, h2, h3⟩ := ih _ hstep1 hstep2
    exact ⟨h1, h2, h3.trans hstep3⟩

/-- C8 (amended): within one recorder lifetime that starts from a newly
created (size-0) file, every appended record links to its predecessor and
the chain is rooted at the one-time session init record, which is written
exactly when the file is newly created; a recorder reopening a non-empty
file starts with an empty `lastID`, so its first appended record does not
link to the file's previous record. -/
theorem C8_session_chain (userID : Int) (msgs : List Message) (ids : Nat → String)
    (now : Nat) (file : List RecEvent) (hne : file.length ≠ 0) :
    chainOK (runSession userID msgs ids now).file = true
    ∧ (runSession userID msgs ids now).file.head?
        = some (sessionInitEvent userID (ids 0) now)
    ∧ (newRecorder userID [] (ids 0) now).file = [sessionInitEvent userID (ids 0) now]
    ∧ (newRecorder userID file (ids 0) now).file = file
    ∧ (newRecorder userID file (ids 0) now).lastID = "" := by
  have hinit : newRecorder userID [] (ids 0) now
      = ⟨userID, [sessionInitEvent userID (ids 0) now], (sessionInitEvent userID (ids 0) now).id⟩ := by
    simp [newRecorder]
  have base1 : chainOK (newRecorder userID [] (ids 0) now).file = true := by
    rw [hinit]
    rfl
  have base2 : (newRecorder userID [] (ids 0) now).file.getLast?.map (·.id)
      = some (newRecorder userID [] (ids 0) now).lastID := by
    rw [hinit]
    simp [List.getLast?]
  obtain ⟨h1, _, h3⟩ := record_foldl_inv msgs.enum _ ids now base1 base2
  refine ⟨h1, ?_, by rw [hinit], by simp [newRecorder, hne], by simp [newRecorder, hne]⟩
  unfold runSession
  rw [h3, hinit]
  rfl

theorem C8_witness :
    chainOK (runSession 7 [userTextMessage "hi"] idsEx 0).file = true
    ∧ (newRecorder 7 recRun1.file (idsEx 0) 0).lastID = "" := by
  have hc := C8_session_chain 7 [userTextMessage "hi"] idsEx 0 recRun1.file (by decide)
  exact ⟨hc.1, hc.2.2.2.2⟩

/-- C8 counterexample: a file written across two recorder lifetimes — the
second opening the existing non-empty file — does not form a single
linear chain: the third record's parent_id is empty instead of the second
record's id "bb". -/
theorem C8_counterexample :
    chainOK recRun2.file = false
    ∧ recRun2.file.length = 3
    ∧ (recRun2.file.getD 2 (sessionInitEvent 0 "" 0)).parentID = ""
    ∧ (recRun2.file.getD 1 (sessionInitEvent 0 "" 0)).id = "bb" := by
  decide

end M4d
